import Mathlib

/-!
Verification of the HTTP response cache and MITM caching proxy
(`cache/cache.go`) of the antarctic-database-go repository.

The Go code is shallowly embedded: the SQLite table is a list of rows,
`http.Header` (a Go map from header name to ordered value list) is a
key-sorted association list, the JSON text produced by `encoding/json`
is a JSON syntax tree (Go's deterministic printing is injective on these
trees, so string equality of the stored `headers` column corresponds to
equality of trees), and byte slices are lists of byte values.
-/

namespace AntarcticCache

/- A JSON value, as produced/consumed by `encoding/json` for
`map[string][]string`: strings, arrays and objects (fields kept in
emission order). `JsonList`/`JsonFields` inline the element lists. -/
mutual

inductive Json where
  | str (s : String)
  | arr (xs : JsonList)
  | obj (fields : JsonFields)

inductive JsonList where
  | nil
  | cons (hd : Json) (tl : JsonList)

inductive JsonFields where
  | nil
  | cons (key : String) (val : Json) (tl : JsonFields)

end

deriving instance DecidableEq for Json
deriving instance DecidableEq for JsonList
deriving instance DecidableEq for JsonFields

deriving instance DecidableEq for Except

/-- Model of Go `http.Header` (`map[string][]string`): a Go map is
unordered with unique keys, represented canonically as an association
list strictly sorted by key. Each value list is ordered. -/
abbrev Header := List (String × List String)

/-- Lexicographic order on character lists, by code point.  On UTF-8
text this coincides with Go's byte-wise `string` comparison (UTF-8
encoding preserves code-point order), the order in which `json.Marshal`
emits map keys. -/
def charListLt : List Char → List Char → Bool
  | _, [] => false
  | [], _ :: _ => true
  | a :: as, b :: bs =>
    if a < b then true else if b < a then false else charListLt as bs

/-- Go `string` comparison `a < b`. -/
def strLt (a b : String) : Bool :=
  charListLt a.data b.data

/-- The canonical-representation invariant: keys strictly increasing in
the Go string order (a Go map holds each key at most once and has no
intrinsic order). -/
abbrev HeaderSorted (h : Header) : Prop :=
  h.Pairwise (fun a b => strLt a.1 b.1 = true)

/-- Insertion of a key into a Go map, on the sorted association-list
representation: overwrites the value when the key is present, keeps the
keys sorted otherwise.  This models both map assignment during
`json.Unmarshal` and `http.Header.Set`. -/
def insertHeader (k : String) (vs : List String) : Header → Header
  | [] => [(k, vs)]
  | (k2, vs2) :: rest =>
    if strLt k k2 then (k, vs) :: (k2, vs2) :: rest
    else if k = k2 then (k, vs) :: rest
    else (k2, vs2) :: insertHeader k vs rest

/-- Go map read `h[k]` (used by tests and by `Header.Get`): the value
list stored under `k`, or `none` when absent. -/
def headerValues (h : Header) (k : String) : Option (List String) :=
  (h.find? (fun p => p.1 == k)).map Prod.snd

/-- `json.Marshal` of a `[]string` value: a JSON array of its strings,
in order. -/
def encodeValues : List String → JsonList
  | [] => .nil
  | s :: rest => .cons (.str s) (encodeValues rest)

/-- `json.Marshal` of a `map[string][]string`: an object with one field
per key.  Go emits map keys in sorted order, which on the canonical
(sorted) representation is the list order. -/
def encodeFields : Header → JsonFields
  | [] => .nil
  | (k, vs) :: rest => .cons k (.arr (encodeValues vs)) (encodeFields rest)

/-- `HeadersToJSON` (cache.go): `json.Marshal(headers)`.  The only
error path in the source is a value `json.Marshal` cannot encode, which
cannot arise for `map[string][]string`, so the result is total here. -/
def HeadersToJSON (h : Header) : Json :=
  .obj (encodeFields h)

/-- `json.Unmarshal` of a JSON array into `[]string`: every element
must be a string. -/
def decodeStringList : JsonList → Option (List String)
  | .nil => some []
  | .cons (.str s) rest => (decodeStringList rest).map (fun tl => s :: tl)
  | .cons _ _ => none

def stringsOfJson : Json → Option (List String)
  | .arr xs => decodeStringList xs
  | _ => none

/-- Decode each object field into a `(key, values)` pair, in field
order; fails if any value is not an array of strings. -/
def decodeFields : JsonFields → Option (List (String × List String))
  | .nil => some []
  | .cons k v rest =>
    match stringsOfJson v, decodeFields rest with
    | some vs, some tail => some ((k, vs) :: tail)
    | _, _ => none

/-- `HeadersFromJSON` (cache.go): `json.Unmarshal` of the stored JSON
text into a fresh `http.Header` map.  The top-level value must be an
object; its fields are assigned into the map one by one. -/
def HeadersFromJSON : Json → Option Header
  | .obj fields =>
    (decodeFields fields).map
      (fun kvs => kvs.foldl (fun acc kv => insertHeader kv.1 kv.2 acc) [])
  | _ => none

/-- Go `time.Time`, reduced to its semantic content: the instant as
whole seconds plus the sub-second nanoseconds (`0 ≤ nsec < 10^9` in Go;
the location is taken as UTC). -/
structure GoTime where
  sec : Int
  nsec : Nat
deriving DecidableEq, Repr

/-- The content of a string produced by `Format(time.RFC3339)`: the
layout `2006-01-02T15:04:05Z07:00` has fields for the calendar second
and the zone offset but no fractional-second field, so a formatted
string records exactly the whole-second instant.  The calendar
rendering (an injective map from this content to text, realised by
`rfc3339Render` below) is kept abstract in the stored column. -/
structure RFC3339Text where
  instantSeconds : Int
deriving DecidableEq, Repr

/-- `t.Format(time.RFC3339)`: the sub-second part of `t` does not
appear in the layout. -/
def GoTime.formatRFC3339 (t : GoTime) : RFC3339Text :=
  { instantSeconds := t.sec }

/-- `time.Parse(time.RFC3339, s)`: reconstructs the whole-second
instant; the parsed time has zero nanoseconds.  (The source's parse
error branch fires only on text not produced by `Format`, which cannot
occur for rows written by this store.) -/
def parseRFC3339 (s : RFC3339Text) : GoTime :=
  { sec := s.instantSeconds, nsec := 0 }

/-- Dropping the sub-second component of a `time.Time`. -/
def GoTime.truncateToSeconds (t : GoTime) : GoTime :=
  { sec := t.sec, nsec := 0 }

/-- Civil date from a day count relative to 1970-01-01 (proleptic
Gregorian): returns `(year, month, day)`. -/
def civilFromDays (z0 : Int) : Int × Nat × Nat :=
  let z := z0 + 719468
  let era : Int := (if 0 ≤ z then z else z - 146096) / 146097
  let doe : Nat := (z - era * 146097).toNat
  let yoe : Nat := (doe - doe / 1460 + doe / 36524 - doe / 146096) / 365
  let y : Int := (yoe : Int) + era * 400
  let doy : Nat := doe - (365 * yoe + yoe / 4 - yoe / 100)
  let mp : Nat := (5 * doy + 2) / 153
  let d : Nat := doy - (153 * mp + 2) / 5 + 1
  let m : Nat := if mp < 10 then mp + 3 else mp - 9
  (if m ≤ 2 then y + 1 else y, m, d)

def pad2 (n : Nat) : String :=
  if n < 10 then "0" ++ toString n else toString n

def pad4 (n : Int) : String :=
  let m := n.toNat
  if m < 10 then "000" ++ toString m
  else if m < 100 then "00" ++ toString m
  else if m < 1000 then "0" ++ toString m
  else toString m

/-- The text of an RFC3339 timestamp at UTC, e.g.
`2006-01-02T15:04:05Z`: the concrete rendering of `RFC3339Text`
content, used for the synthetic `X-Cache-Timestamp` header value. -/
def rfc3339Render (t : RFC3339Text) : String :=
  let days := t.instantSeconds.ediv 86400
  let secs := (t.instantSeconds.emod 86400).toNat
  let ymd := civilFromDays days
  pad4 ymd.1 ++ "-" ++ pad2 ymd.2.1 ++ "-" ++ pad2 ymd.2.2 ++ "T" ++
    pad2 (secs / 3600) ++ ":" ++ pad2 (secs % 3600 / 60) ++ ":" ++
    pad2 (secs % 60) ++ "Z"

/-- `type Url string` (cache.go). -/
abbrev Url := String

/-- `RequestKey` (cache.go): the cache key. -/
structure RequestKey where
  Method : String
  URL : Url
deriving DecidableEq, Repr

/-- `CacheRow` (cache.go): one stored HTTP exchange, as handled by the
Go API.  `Headers` is the serialized headers text (see `Json`),
`Body` the raw bytes. -/
structure CacheRow where
  StatusCode : Int
  Status : String
  Headers : Json
  Method : String
  Url : Url
  Body : List Nat
  Timestamp : GoTime
deriving DecidableEq

/-- One row of the SQLite `cache` table: the `timestamp` column holds
the `Format(time.RFC3339)` text. -/
structure DBRow where
  Method : String
  Url : Url
  StatusCode : Int
  Status : String
  Headers : Json
  Body : List Nat
  TimestampText : RFC3339Text
deriving DecidableEq

/-- Serialization performed by the `INSERT` of `SQLiteCache.Set`:
all columns verbatim, the timestamp via `Format(time.RFC3339)`. -/
def toDBRow (row : CacheRow) : DBRow :=
  { Method := row.Method, Url := row.Url, StatusCode := row.StatusCode,
    Status := row.Status, Headers := row.Headers, Body := row.Body,
    TimestampText := row.Timestamp.formatRFC3339 }

/-- The `WHERE method = ? AND url = ?` predicate. -/
def keyMatch (r : DBRow) (key : RequestKey) : Bool :=
  r.Method == key.Method && r.Url == key.URL

/-- The database state: the rows of the `cache` table.  The
`PRIMARY KEY (method, url)` constraint means at most one row matches a
key; all operations below preserve that. -/
abbrev DB := List DBRow

/-- `SELECT ... WHERE method = ? AND url = ?` returning at most one
row. -/
def dbLookup (db : DB) (key : RequestKey) : Option DBRow :=
  db.find? (fun r => keyMatch r key)

/-- The number of table rows matching a key. -/
def countKey (db : DB) (key : RequestKey) : Nat :=
  (db.filter (fun r => keyMatch r key)).length

/-- `SQLiteCache.Set` (cache.go): inside one transaction, look up the
existing row for `(method, url)`; if absent, `INSERT` the serialized
row; if present, compare the stored `headers` text and `body` bytes
against the new row's — equal means success without writing, a
difference aborts the transaction with a conflict error.  The result
pairs the returned `error` with the table state after the call (on
error the transaction rolled back, so the state is unchanged). -/
def SQLiteCache.Set (db : DB) (row : CacheRow) : Except String Unit × DB :=
  match dbLookup db ⟨row.Method, row.Url⟩ with
  | none => (.ok (), db ++ [toDBRow row])
  | some existing =>
    if existing.Headers ≠ row.Headers then
      (.error "cache entry exists with different headers", db)
    else if existing.Body ≠ row.Body then
      (.error "cache entry exists with different body", db)
    else (.ok (), db)

/-- `SQLiteCache.Get` (cache.go): point lookup; `sql.ErrNoRows` maps to
`none` ("not found, but not an error"); a found row has its `timestamp`
column parsed with `time.Parse(time.RFC3339, ·)`.  (Per-operation I/O
errors and the parse-failure branch — which needs a timestamp text not
written by `Set` — are outside the embedding.) -/
def SQLiteCache.Get (db : DB) (key : RequestKey) : Option CacheRow :=
  (dbLookup db key).map
    (fun r =>
      { Method := r.Method, Url := r.Url, StatusCode := r.StatusCode,
        Status := r.Status, Headers := r.Headers, Body := r.Body,
        Timestamp := parseRFC3339 r.TimestampText })

/-- `SQLiteCache.Delete` (cache.go): one unconditional `DELETE` for the
key; the source returns `nil` whether or not a row matched (only an
I/O failure of `Exec`, outside the embedding, errors). -/
def SQLiteCache.Delete (db : DB) (key : RequestKey) : Except String Unit × DB :=
  (.ok (), db.filter (fun r => !keyMatch r key))

/-- Go `*http.Response`, reduced to the fields the cache touches.  The
body stream is represented by the bytes it yields (the source fully
buffers bodies with `io.ReadAll` and re-wraps them, which on this
representation is the identity). -/
structure Response where
  Status : String
  StatusCode : Int
  Header : Header
  Body : List Nat
deriving DecidableEq

/-- `Cache.Get` (cache.go): fetch the row, deserialize the headers,
rebuild the response, and attach the synthetic `X-Cache-Timestamp`
header (via `Header.Set`, i.e. overwriting) carrying the row's
timestamp re-formatted as RFC3339. -/
def Cache.Get (db : DB) (url : Url) (method : String) :
    Except String (Option Response) :=
  match SQLiteCache.Get db ⟨method, url⟩ with
  | none => .ok none
  | some row =>
    match HeadersFromJSON row.Headers with
    | none => .error "headers unmarshal failed"
    | some headers =>
      .ok (some
        { Status := row.Status, StatusCode := row.StatusCode,
          Body := row.Body,
          Header := insertHeader "X-Cache-Timestamp"
            [rfc3339Render row.Timestamp.formatRFC3339] headers })

/-- `Cache.Set` (cache.go): drain the body (identity here), serialize
the headers, build a row stamped `time.Now()` (passed as `now`), store
it, and return the input response object unchanged.  The result pairs
the return values with the table state after the call. -/
def Cache.Set (db : DB) (resp : Response) (url : Url) (method : String)
    (now : GoTime) : Except String Response × DB :=
  let row : CacheRow :=
    { StatusCode := resp.StatusCode, Status := resp.Status,
      Headers := HeadersToJSON resp.Header, Method := method,
      Url := url, Body := resp.Body, Timestamp := now }
  match SQLiteCache.Set db row with
  | (.error e, db2) => (.error e, db2)
  | (.ok _, db2) => (.ok resp, db2)

/-- `Cache.Delete` (cache.go): delegates to the store. -/
def Cache.Delete (db : DB) (url : Url) (method : String) :
    Except String Unit × DB :=
  SQLiteCache.Delete db ⟨method, url⟩

/-- `Cache.RoundTrip` (cache.go), the Transport Interceptor: consult
the cache; on a hit return the reconstructed response; on a miss
delegate to the wrapped transport and store the fetched response before
returning it; every error returns `(nil, err)`.  `transport` is the
underlying transport's result for this request, and the third component
counts how many times that transport was invoked. -/
def Cache.RoundTrip (db : DB) (transport : Except String Response)
    (now : GoTime) (url : Url) (method : String) :
    Except String Response × DB × Nat :=
  match Cache.Get db url method with
  | .error e => (.error e, db, 0)
  | .ok (some resp) => (.ok resp, db, 0)
  | .ok none =>
    match transport with
    | .error e => (.error e, db, 1)
    | .ok resp =>
      match Cache.Set db resp url method now with
      | (.error e, db2) => (.error e, db2, 1)
      | (.ok resp2, db2) => (.ok resp2, db2, 1)

/-- `Cache.RoundTrip` with a concurrent writer: the SQLite file is
shared state, so between the miss check and the store another worker
may commit rows — `SQLiteCache.Set` guards against exactly this race by
re-reading inside its transaction.  `interference` is the table
mutation committed by others during the network fetch — the identity
when the interceptor runs alone, in which case this function coincides
with `Cache.RoundTrip` (`roundTripConc_id` below). -/
def Cache.RoundTripConc (db : DB) (interference : DB → DB)
    (transport : Except String Response) (now : GoTime)
    (url : Url) (method : String) : Except String Response × DB × Nat :=
  match Cache.Get db url method with
  | .error e => (.error e, db, 0)
  | .ok (some resp) => (.ok resp, db, 0)
  | .ok none =>
    match transport with
    | .error e => (.error e, interference db, 1)
    | .ok resp =>
      match Cache.Set (interference db) resp url method now with
      | (.error e, db2) => (.error e, db2, 1)
      | (.ok resp2, db2) => (.ok resp2, db2, 1)

/-- `shouldCache` (cache.go). -/
def shouldCache (resp : Response) : Bool :=
  resp.StatusCode == 200

/-- `cloneResponse` (cache.go): buffers the body and copies every field
into a fresh response, re-adding each header value in order; on the
pure representation the copy is equal to the original.  (`Proto`,
`ContentLength` and the other fields the source copies verbatim are
outside the reduced `Response`.) -/
def cloneResponse (resp : Response) : Response :=
  { Status := resp.Status, StatusCode := resp.StatusCode,
    Header := resp.Header, Body := resp.Body }

/-- The proxy's `OnRequest` hook (inside `NewCachedProxyHandler`):
look the decrypted request up in the cache; on a hit short-circuit with
the cached response (its `Request` linkage is outside the reduced
model); on a miss record the request key in `ctx.UserData` and let the
request proceed.  A cache read failure makes the source call
`os.Exit(1)`, modelled as the error outcome. -/
def onRequest (db : DB) (url : Url) (method : String) :
    Except String (Option Response × Option RequestKey) :=
  match Cache.Get db url method with
  | .error e => .error e
  | .ok (some cached) => .ok (some cached, none)
  | .ok none => .ok (none, some ⟨method, url⟩)

/-- The proxy's `OnResponse` hook (inside `NewCachedProxyHandler`): if
the response is non-nil, `ctx.UserData` holds a request key, and
`shouldCache` approves, clone the response and store the clone
(`cache.Set`'s return values are discarded by the source).  Returns
the table state afterwards and whether a store was performed. -/
def onResponse (db : DB) (resp : Option Response)
    (userData : Option RequestKey) (now : GoTime) : DB × Bool :=
  match resp, userData with
  | some r, some key =>
    if shouldCache r then
      ((Cache.Set db (cloneResponse r) key.URL key.Method now).2, true)
    else (db, false)
  | _, _ => (db, false)

/-- `CertStorage` (cache.go): the `sync.Map` from hostname to generated
leaf certificate, as an association list.  `α` stands for
`*tls.Certificate`, which the store never inspects. -/
abbrev CertStorage (α : Type) := List (String × α)

/-- `sync.Map.Load`. -/
def certLookup {α : Type} (cs : CertStorage α) (hostname : String) : Option α :=
  (cs.find? (fun p => p.1 == hostname)).map Prod.snd

/-- `CertStorage.Fetch` (cache.go): return the certificate stored for
the hostname if present; otherwise call `gen` and `LoadOrStore` its
result (in the sequential semantics the hostname is still absent, so
the generated certificate is stored and returned).  `gen` is the
generation function's result; the third component records whether `gen`
was invoked. -/
def CertStorage.Fetch {α : Type} (cs : CertStorage α) (hostname : String)
    (gen : Except String α) : Except String α × CertStorage α × Bool :=
  match certLookup cs hostname with
  | some c => (.ok c, cs, false)
  | none =>
    match gen with
    | .error e => (.error e, cs, true)
    | .ok cert => (.ok cert, cs ++ [(hostname, cert)], true)

/-! Concrete fixtures, mirroring the repository's own test data
(`cache_test.go`): used by the witness theorems below. -/

/-- A multi-valued header map in canonical (key-sorted) form. -/
def hdrA : Header :=
  [("Content-Type", ["application/json"]), ("X-Test", ["Value1", "Value2"])]

/-- Body bytes of `"test"`. -/
def bodyA : List Nat := [116, 101, 115, 116]

def respA : Response :=
  { Status := "200 OK", StatusCode := 200, Header := hdrA, Body := bodyA }

def urlA : Url := "https://example.com/test"

def keyA : RequestKey := { Method := "GET", URL := urlA }

/-- 2021-01-01T00:00:00Z plus a sub-second component. -/
def timeA : GoTime := { sec := 1609459200, nsec := 123456789 }

def rowA : CacheRow :=
  { StatusCode := 200, Status := "200 OK", Headers := HeadersToJSON hdrA,
    Method := "GET", Url := urlA, Body := bodyA, Timestamp := timeA }

def dbA : DB := [toDBRow rowA]

/-- A row under the same key as `rowA` but with a different body. -/
def rowB : CacheRow :=
  { rowA with Body := [98, 97, 100] }

/-- Identical headers and body as `rowA`, stored at a later time. -/
def rowA2 : CacheRow :=
  { rowA with Timestamp := { sec := 1700000000, nsec := 5 } }

/-- The response `Cache.Get dbA urlA "GET"` reconstructs. -/
def respGetA : Response :=
  { Status := "200 OK", StatusCode := 200,
    Header := insertHeader "X-Cache-Timestamp"
      [rfc3339Render { instantSeconds := 1609459200 }] hdrA,
    Body := bodyA }

/-- Same headers as `respA`, different body bytes. -/
def respB : Response :=
  { respA with Body := [98, 97, 100] }

/-- A certificate store that already retains a certificate (the
certificate contents stand in as a number). -/
def certsA : CertStorage Nat := [("example.com", 42)]

/-! Supporting lemmas. -/

theorem charListLt_irrefl : ∀ l : List Char, charListLt l l = false
  | [] => rfl
  | a :: as => by
    simp only [charListLt, lt_irrefl a, if_false, if_neg]
    exact charListLt_irrefl as

theorem charListLt_asymm :
    ∀ l1 l2 : List Char, charListLt l1 l2 = true → charListLt l2 l1 = false
  | _, [], h => by simp [charListLt] at h
  | [], _ :: _, _ => rfl
  | a :: as, b :: bs, h => by
    by_cases hab : a < b
    · have hba : ¬ b < a := fun hc => absurd (lt_trans hab hc) (lt_irrefl a)
      simp [charListLt, hba, hab]
    · by_cases hba : b < a
      · simp [charListLt, hab, hba] at h
      · simp only [charListLt, hab, hba, if_false, if_neg] at h ⊢
        exact charListLt_asymm as bs h

theorem strLt_asymm (a b : String) (h : strLt a b = true) : strLt b a = false :=
  charListLt_asymm a.data b.data h

theorem strLt_irrefl (a : String) : strLt a a = false :=
  charListLt_irrefl a.data

/-- Inserting a key greater than every key of a sorted map appends it. -/
theorem insertHeader_append (k : String) (vs : List String) :
    ∀ h : Header, (∀ p ∈ h, strLt p.1 k = true) →
      insertHeader k vs h = h ++ [(k, vs)]
  | [], _ => rfl
  | (k2, vs2) :: rest, hk => by
    have hlt : strLt k2 k = true := hk (k2, vs2) (by simp)
    have h1 : ¬ strLt k k2 = true := by
      simp [strLt_asymm k2 k hlt]
    have h2 : ¬ k = k2 := by
      intro he
      rw [he] at hlt
      simp [strLt_irrefl k2] at hlt
    simp only [insertHeader, if_neg h1, if_neg h2, List.cons_append, List.cons.injEq,
      true_and]
    exact insertHeader_append k vs rest (fun p hp => hk p (List.mem_cons_of_mem _ hp))

/-- Rebuilding a map by inserting sorted fields in order reproduces the
canonical representation. -/
theorem foldl_insert_sorted :
    ∀ (h acc : Header), HeaderSorted (acc ++ h) →
      h.foldl (fun acc2 kv => insertHeader kv.1 kv.2 acc2) acc = acc ++ h
  | [], acc, _ => by simp
  | (k, vs) :: t, acc, hp => by
    have hlt : ∀ p ∈ acc, strLt p.1 k = true := by
      have hp0 : List.Pairwise (fun a b : String × List String => strLt a.1 b.1 = true)
          (acc ++ (k, vs) :: t) := hp
      rw [List.pairwise_append] at hp0
      intro p hpmem
      exact hp0.2.2 p hpmem (k, vs) (by simp)
    have hp2 : HeaderSorted ((acc ++ [(k, vs)]) ++ t) := by
      rw [List.append_assoc]
      simpa using hp
    simp only [List.foldl_cons]
    rw [insertHeader_append k vs acc hlt, foldl_insert_sorted t (acc ++ [(k, vs)]) hp2,
      List.append_assoc]
    simp

theorem decodeStringList_encodeValues :
    ∀ vs : List String, decodeStringList (encodeValues vs) = some vs
  | [] => rfl
  | s :: rest => by
    simp [encodeValues, decodeStringList, decodeStringList_encodeValues rest]

theorem decodeFields_encodeFields :
    ∀ h : Header, decodeFields (encodeFields h) = some h
  | [] => rfl
  | (k, vs) :: rest => by
    simp [encodeFields, decodeFields, stringsOfJson,
      decodeStringList_encodeValues vs, decodeFields_encodeFields rest]

/-- Locating the key just written (`Header.Set` then a map read). -/
theorem find?_insertHeader (k : String) (vs : List String) :
    ∀ h : Header, (insertHeader k vs h).find? (fun p => p.1 == k) = some (k, vs)
  | [] => by simp [insertHeader]
  | (k2, vs2) :: rest => by
    by_cases h1 : strLt k k2 = true
    · simp [insertHeader, h1]
    · by_cases h2 : k = k2
      · subst h2
        simp [insertHeader, h1]
      · have ih := find?_insertHeader k vs rest
        simp only [insertHeader, if_neg h1, if_neg h2]
        refine (List.find?_cons_of_neg _ ?_).trans ih
        simp
        exact fun he => h2 he.symm

/-- Reading back the key just written. -/
theorem headerValues_insertHeader (k : String) (vs : List String) (h : Header) :
    headerValues (insertHeader k vs h) k = some vs := by
  simp [headerValues, find?_insertHeader k vs h]

/-- Appending an element to a list in which nothing satisfies the
predicate makes it the element found. -/
theorem find?_append_single {α : Type} (l : List α) (p : α → Bool) (x : α)
    (h : l.find? p = none) (hx : p x = true) : (l ++ [x]).find? p = some x := by
  rw [List.find?_append, h]
  simp [hx]

theorem dbLookup_append_single (db : DB) (r : DBRow) (key : RequestKey)
    (h : dbLookup db key = none) (hm : keyMatch r key = true) :
    dbLookup (db ++ [r]) key = some r :=
  find?_append_single db _ r h hm

theorem countKey_append (db db2 : DB) (key : RequestKey) :
    countKey (db ++ db2) key = countKey db key + countKey db2 key := by
  simp [countKey, List.filter_append]

theorem countKey_eq_zero (db : DB) (key : RequestKey)
    (h : dbLookup db key = none) : countKey db key = 0 := by
  unfold countKey
  have : db.filter (fun r => keyMatch r key) = [] := by
    rw [List.filter_eq_nil_iff]
    exact List.find?_eq_none.mp h
  rw [this]
  rfl

/-- A `SQLiteCache.Set` that errors rolled its transaction back: the
table is unchanged. -/
theorem sqliteSet_error_state (db : DB) (row : CacheRow) (e : String)
    (h : (SQLiteCache.Set db row).1 = .error e) :
    (SQLiteCache.Set db row).2 = db := by
  unfold SQLiteCache.Set at h ⊢
  cases hl : dbLookup db { Method := row.Method, URL := row.Url } with
  | none => rw [hl] at h; simp at h
  | some existing =>
    rw [hl] at h
    by_cases h1 : existing.Headers = row.Headers
    · by_cases h2 : existing.Body = row.Body
      · simp [h1, h2] at h
      · simp [h1, h2]
    · simp [h1]

/-- `Cache.Set` with the `time.Now()` row spelled out. -/
theorem cacheSet_eq (db : DB) (resp : Response) (url : Url) (method : String)
    (now : GoTime) :
    Cache.Set db resp url method now =
      match SQLiteCache.Set db
          { StatusCode := resp.StatusCode, Status := resp.Status,
            Headers := HeadersToJSON resp.Header, Method := method,
            Url := url, Body := resp.Body, Timestamp := now } with
      | (.error e, db2) => (.error e, db2)
      | (.ok _, db2) => (.ok resp, db2) := rfl

/-- A `Cache.Set` that errors left the table unchanged. -/
theorem cacheSet_error_state (db : DB) (resp : Response) (url : Url)
    (method : String) (now : GoTime) (e : String)
    (h : (Cache.Set db resp url method now).1 = .error e) :
    (Cache.Set db resp url method now).2 = db := by
  rw [cacheSet_eq] at h ⊢
  cases hs : SQLiteCache.Set db
      { StatusCode := resp.StatusCode, Status := resp.Status,
        Headers := HeadersToJSON resp.Header, Method := method,
        Url := url, Body := resp.Body, Timestamp := now } with
  | mk res db2 =>
    cases res with
    | error e2 =>
      have hdb2 := sqliteSet_error_state db
        { StatusCode := resp.StatusCode, Status := resp.Status,
          Headers := HeadersToJSON resp.Header, Method := method,
          Url := url, Body := resp.Body, Timestamp := now } e2 (by rw [hs])
      rw [hs] at hdb2
      exact hdb2
    | ok u =>
      rw [hs] at h
      exact Except.noConfusion h

/-! The claims. -/

/-- C1: calling the store's `Set` for a key that already has a stored
row, with serialized headers or body bytes differing from the existing
row's, returns a conflict error and leaves the table — in particular the
existing row, every field of it — unchanged. -/
theorem sqliteSet_conflict_rejected (db : DB) (row : CacheRow) (existing : DBRow)
    (hex : dbLookup db { Method := row.Method, URL := row.Url } = some existing)
    (hdiff : existing.Headers ≠ row.Headers ∨ existing.Body ≠ row.Body) :
    ((SQLiteCache.Set db row).1 = .error "cache entry exists with different headers" ∨
      (SQLiteCache.Set db row).1 = .error "cache entry exists with different body") ∧
    (SQLiteCache.Set db row).2 = db ∧
    dbLookup (SQLiteCache.Set db row).2 { Method := row.Method, URL := row.Url } =
      some existing := by
  unfold SQLiteCache.Set
  rw [hex]
  by_cases h1 : existing.Headers = row.Headers
  · have h2 : existing.Body ≠ row.Body := by
      rcases hdiff with hd | hd
      · exact absurd h1 hd
      · exact hd
    simp [h1, h2, hex]
  · simp [h1, hex]

/-- C1 witness: `rowB` differs from the stored `rowA` only in its body;
storing it over `dbA` is rejected and `dbA` still holds `rowA`. -/
theorem sqliteSet_conflict_rejected_witness :
    ((SQLiteCache.Set dbA rowB).1 = .error "cache entry exists with different headers" ∨
      (SQLiteCache.Set dbA rowB).1 = .error "cache entry exists with different body") ∧
    (SQLiteCache.Set dbA rowB).2 = dbA ∧
    dbLookup (SQLiteCache.Set dbA rowB).2 { Method := rowB.Method, URL := rowB.Url } =
      some (toDBRow rowA) :=
  sqliteSet_conflict_rejected dbA rowB (toDBRow rowA) (by decide) (Or.inr (by decide))

/-- C2: storing twice under one key with identical serialized headers
and identical body bytes succeeds both times and leaves exactly one row
for that key. -/
theorem sqliteSet_idempotent_single_row (db : DB) (r1 r2 : CacheRow) (key : RequestKey)
    (hm1 : r1.Method = key.Method) (hu1 : r1.Url = key.URL)
    (hm2 : r2.Method = key.Method) (hu2 : r2.Url = key.URL)
    (hH : r2.Headers = r1.Headers) (hB : r2.Body = r1.Body)
    (habs : dbLookup db key = none) :
    (SQLiteCache.Set db r1).1 = .ok () ∧
    (SQLiteCache.Set (SQLiteCache.Set db r1).2 r2).1 = .ok () ∧
    countKey (SQLiteCache.Set (SQLiteCache.Set db r1).2 r2).2 key = 1 := by
  have hkey1 : ({ Method := r1.Method, URL := r1.Url } : RequestKey) = key := by
    cases key
    simp_all
  have hkey2 : ({ Method := r2.Method, URL := r2.Url } : RequestKey) = key := by
    cases key
    simp_all
  have hs1 : SQLiteCache.Set db r1 = (.ok (), db ++ [toDBRow r1]) := by
    unfold SQLiteCache.Set
    rw [hkey1, habs]
  have hmatch : keyMatch (toDBRow r1) key = true := by
    simp [keyMatch, toDBRow, hm1, hu1]
  have hl2 : dbLookup (db ++ [toDBRow r1]) key = some (toDBRow r1) :=
    dbLookup_append_single db (toDBRow r1) key habs hmatch
  have hs2 : SQLiteCache.Set (db ++ [toDBRow r1]) r2 = (.ok (), db ++ [toDBRow r1]) := by
    unfold SQLiteCache.Set
    rw [hkey2, hl2]
    simp [toDBRow, hH, hB]
  refine ⟨by rw [hs1], ?_, ?_⟩
  · rw [hs1]
    show (SQLiteCache.Set (db ++ [toDBRow r1]) r2).1 = .ok ()
    rw [hs2]
  · rw [hs1]
    show countKey (SQLiteCache.Set (db ++ [toDBRow r1]) r2).2 key = 1
    rw [hs2]
    show countKey (db ++ [toDBRow r1]) key = 1
    rw [countKey_append, countKey_eq_zero db key habs]
    simp [countKey, hmatch]

/-- C2 witness: `rowA2` equals `rowA` in headers and body (differing
timestamp); both stores succeed and the key has exactly one row. -/
theorem sqliteSet_idempotent_single_row_witness :
    (SQLiteCache.Set [] rowA).1 = .ok () ∧
    (SQLiteCache.Set (SQLiteCache.Set [] rowA).2 rowA2).1 = .ok () ∧
    countKey (SQLiteCache.Set (SQLiteCache.Set [] rowA).2 rowA2).2 keyA = 1 :=
  sqliteSet_idempotent_single_row [] rowA rowA2 keyA rfl rfl rfl rfl rfl rfl (by decide)

/-- C3: serializing a header map with `HeadersToJSON` and deserializing
with `HeadersFromJSON` — the composition performed by the Cache
Facade's `set` followed by `get` — returns the same keys with the same
value lists in the same order, for every canonically-represented map,
multi-valued keys included. -/
theorem headers_json_roundtrip (h : Header) (hs : HeaderSorted h) :
    HeadersFromJSON (HeadersToJSON h) = some h := by
  show (decodeFields (encodeFields h)).map
      (fun kvs => kvs.foldl (fun acc kv => insertHeader kv.1 kv.2 acc) []) = some h
  rw [decodeFields_encodeFields h]
  show some (h.foldl (fun acc kv => insertHeader kv.1 kv.2 acc) []) = some h
  rw [foldl_insert_sorted h [] (by simpa using hs)]
  rfl

/-- C3 witness: a map with one single-valued and one two-valued key
round-trips unchanged. -/
theorem headers_json_roundtrip_witness :
    HeaderSorted hdrA ∧ HeadersFromJSON (HeadersToJSON hdrA) = some hdrA :=
  ⟨by decide, headers_json_roundtrip hdrA (by decide)⟩

/-- C8: `Delete` succeeds whether or not a row exists for the key, and
a subsequent `Get` for that key reports absence, which is not an
error. -/
theorem sqliteDelete_idempotent_then_absent (db : DB) (key : RequestKey) :
    (SQLiteCache.Delete db key).1 = .ok () ∧
    SQLiteCache.Get (SQLiteCache.Delete db key).2 key = none := by
  refine ⟨rfl, ?_⟩
  have hnone : dbLookup (db.filter (fun r => !keyMatch r key)) key = none := by
    unfold dbLookup
    rw [List.find?_eq_none]
    intro x hx
    have hxm := (List.mem_filter.mp hx).2
    simp at hxm
    simp [hxm]
  show (dbLookup (db.filter (fun r => !keyMatch r key)) key).map _ = none
  rw [hnone]
  rfl

/-- C10: the store writes timestamps as RFC3339 text (whole seconds
only) and parses that text on read, so a freshly inserted row reads
back with its timestamp truncated to whole seconds: the sub-second
component of the caller-supplied timestamp is lost. -/
theorem sqliteSet_get_truncates_timestamp (db : DB) (row : CacheRow)
    (habs : dbLookup db { Method := row.Method, URL := row.Url } = none) :
    (SQLiteCache.Set db row).1 = .ok () ∧
    SQLiteCache.Get (SQLiteCache.Set db row).2 { Method := row.Method, URL := row.Url } =
      some { StatusCode := row.StatusCode, Status := row.Status, Headers := row.Headers,
             Method := row.Method, Url := row.Url, Body := row.Body,
             Timestamp := row.Timestamp.truncateToSeconds } := by
  have hs : SQLiteCache.Set db row = (.ok (), db ++ [toDBRow row]) := by
    unfold SQLiteCache.Set
    rw [habs]
  have hmatch : keyMatch (toDBRow row) { Method := row.Method, URL := row.Url } = true := by
    simp [keyMatch, toDBRow]
  have hl : dbLookup (db ++ [toDBRow row]) { Method := row.Method, URL := row.Url } =
      some (toDBRow row) := dbLookup_append_single db _ _ habs hmatch
  rw [hs]
  refine ⟨rfl, ?_⟩
  show SQLiteCache.Get (db ++ [toDBRow row]) _ = _
  unfold SQLiteCache.Get
  rw [hl]
  simp [toDBRow, parseRFC3339, GoTime.formatRFC3339, GoTime.truncateToSeconds]

/-- C10 witness: `rowA` carries nanoseconds `123456789`; the row read
back carries the same whole seconds and zero nanoseconds. -/
theorem sqliteSet_get_truncates_timestamp_witness :
    (SQLiteCache.Set [] rowA).1 = .ok () ∧
    SQLiteCache.Get (SQLiteCache.Set [] rowA).2 { Method := rowA.Method, URL := rowA.Url } =
      some { StatusCode := rowA.StatusCode, Status := rowA.Status, Headers := rowA.Headers,
             Method := rowA.Method, Url := rowA.Url, Body := rowA.Body,
             Timestamp := rowA.Timestamp.truncateToSeconds } :=
  sqliteSet_get_truncates_timestamp [] rowA (by decide)

/-- With no concurrent writer the interleaved interceptor is the plain
one. -/
theorem roundTripConc_id (db : DB) (transport : Except String Response)
    (now : GoTime) (url : Url) (method : String) :
    Cache.RoundTripConc db id transport now url method =
      Cache.RoundTrip db transport now url method := by
  unfold Cache.RoundTripConc Cache.RoundTrip
  cases Cache.Get db url method with
  | error e => rfl
  | ok o =>
    cases o with
    | some resp => rfl
    | none =>
      cases transport with
      | error e => rfl
      | ok resp => rfl

/-- C4: when the key has a stored entry, the Transport Interceptor
returns the reconstructed cached response with zero invocations of the
wrapped transport; and the wrapped transport is invoked only when the
cache reports a miss. -/
theorem roundTrip_hit_short_circuits (db : DB) (transport : Except String Response)
    (now : GoTime) (url : Url) (method : String) (r : Response)
    (hhit : Cache.Get db url method = .ok (some r)) :
    Cache.RoundTrip db transport now url method = (.ok r, db, 0) ∧
    ∀ (db2 : DB) (t2 : Except String Response) (now2 : GoTime) (u2 : Url) (m2 : String),
      (Cache.RoundTrip db2 t2 now2 u2 m2).2.2 ≠ 0 → Cache.Get db2 u2 m2 = .ok none := by
  constructor
  · unfold Cache.RoundTrip
    rw [hhit]
  · intro db2 t2 now2 u2 m2 hcall
    unfold Cache.RoundTrip at hcall
    cases hg : Cache.Get db2 u2 m2 with
    | error e => rw [hg] at hcall; simp at hcall
    | ok o =>
      cases o with
      | none => rfl
      | some r2 => rw [hg] at hcall; simp at hcall

/-- C4 witness: with `rowA` stored, a round trip returns the cached
response and the (always failing) transport is never consulted. -/
theorem roundTrip_hit_short_circuits_witness :
    Cache.RoundTrip dbA (.error "no network") timeA urlA "GET" = (.ok respGetA, dbA, 0) :=
  (roundTrip_hit_short_circuits dbA (.error "no network") timeA urlA "GET" respGetA
    (by decide)).1

/-- C7: on a cache miss whose delegated network fetch succeeds but
whose store of the response returns a conflict error — possible when a
concurrent writer committed a differing row during the fetch — the
interceptor surfaces that error as the overall result and returns no
response object. -/
theorem roundTrip_store_conflict_surfaced (db : DB) (interference : DB → DB)
    (r : Response) (now : GoTime) (url : Url) (method : String) (e : String)
    (hmiss : Cache.Get db url method = .ok none)
    (hconf : (Cache.Set (interference db) r url method now).1 = .error e) :
    Cache.RoundTripConc db interference (.ok r) now url method =
      (.error e, interference db, 1) := by
  have hstate : (Cache.Set (interference db) r url method now).2 = interference db :=
    cacheSet_error_state (interference db) r url method now e hconf
  have hunfold : Cache.RoundTripConc db interference (.ok r) now url method =
      (match Cache.Set (interference db) r url method now with
       | (Except.error e2, db2) => (Except.error e2, db2, 1)
       | (Except.ok resp2, db2) => (Except.ok resp2, db2, 1)) := by
    unfold Cache.RoundTripConc
    rw [hmiss]
  rw [hunfold]
  cases hs : Cache.Set (interference db) r url method now with
  | mk res db2 =>
    rw [hs] at hconf hstate
    cases res with
    | error e2 =>
      simp at hconf hstate
      simp [hconf, hstate]
    | ok r2 => exact Except.noConfusion hconf

/-- C7 witness: empty table at miss time; a writer commits `rowA`
during the fetch; storing `respB` (same headers, different body) then
conflicts and the round trip yields the error and no response. -/
theorem roundTrip_store_conflict_surfaced_witness :
    Cache.RoundTripConc [] (fun _ => dbA) (.ok respB) timeA urlA "GET" =
      (.error "cache entry exists with different body", dbA, 1) :=
  roundTrip_store_conflict_surfaced [] (fun _ => dbA) respB timeA urlA "GET"
    "cache entry exists with different body" (by decide) (by decide)

/-- C5 counterexample: a successful `Cache.Set` of a response carrying
no `X-Cache-Timestamp` header returns that response with no such header
attached — the freshly-stored path does not carry the synthetic
header the claim requires of every returned response. -/
theorem cacheSet_returns_without_timestamp_header :
    (Cache.Set [] respA urlA "GET" { sec := 1609459200, nsec := 0 }).1 = .ok respA ∧
    headerValues respA.Header "X-Cache-Timestamp" = none := by
  constructor
  · rfl
  · decide

/-- C5 (amended): every cache hit returned by `Cache.Get` carries an
`X-Cache-Timestamp` header holding the stored row's timestamp rendered
as RFC3339; a successful `Cache.Set`, however, returns its input
response object unchanged, so freshly-stored responses gain no such
header. -/
theorem xCacheTimestamp_hits_only :
    (∀ (db : DB) (url : Url) (method : String) (row : DBRow) (r : Response),
        dbLookup db { Method := method, URL := url } = some row →
        Cache.Get db url method = .ok (some r) →
        headerValues r.Header "X-Cache-Timestamp" =
          some [rfc3339Render row.TimestampText]) ∧
    (∀ (db : DB) (resp : Response) (url : Url) (method : String) (now : GoTime)
        (r2 : Response) (db2 : DB),
        Cache.Set db resp url method now = (.ok r2, db2) → r2 = resp) := by
  constructor
  · intro db url method row r hrow hget
    unfold Cache.Get SQLiteCache.Get at hget
    rw [hrow] at hget
    simp only [Option.map_some'] at hget
    cases hdec : HeadersFromJSON row.Headers with
    | none =>
      rw [hdec] at hget
      exact Except.noConfusion hget
    | some headers =>
      rw [hdec] at hget
      simp only [Except.ok.injEq, Option.some.injEq] at hget
      rw [← hget]
      rw [headerValues_insertHeader]
      rfl
  · intro db resp url method now r2 db2 hset
    rw [cacheSet_eq] at hset
    cases hs : SQLiteCache.Set db
        { StatusCode := resp.StatusCode, Status := resp.Status,
          Headers := HeadersToJSON resp.Header, Method := method,
          Url := url, Body := resp.Body, Timestamp := now } with
    | mk res db3 =>
      rw [hs] at hset
      cases res with
      | error e => exact Except.noConfusion (congrArg Prod.fst hset)
      | ok u =>
        have hfst := congrArg Prod.fst hset
        simp at hfst
        exact hfst.symm

/-- C5 witness: the hit for `rowA` carries the RFC3339 rendering of the
stored timestamp. -/
theorem xCacheTimestamp_hits_only_witness :
    headerValues respGetA.Header "X-Cache-Timestamp" =
      some [rfc3339Render (toDBRow rowA).TimestampText] :=
  xCacheTimestamp_hits_only.1 dbA urlA "GET" (toDBRow rowA) respGetA
    (by decide) (by decide)

/-- C6: the MITM response phase stores a response exactly when its
status code is 200 and a request key was attached in the request phase;
otherwise the table is untouched; and the request phase attaches a key
exactly on a cache miss. -/
theorem onResponse_stores_iff (db : DB) (resp : Option Response)
    (userData : Option RequestKey) (now : GoTime) :
    ((onResponse db resp userData now).2 = true ↔
      ∃ (r : Response) (key : RequestKey),
        resp = some r ∧ userData = some key ∧ r.StatusCode = 200) ∧
    ((onResponse db resp userData now).2 = false →
      (onResponse db resp userData now).1 = db) ∧
    (∀ (url : Url) (method : String) (out : Option Response × Option RequestKey),
      onRequest db url method = .ok out →
      (out.2.isSome ↔ Cache.Get db url method = .ok none)) := by
  refine ⟨?_, ?_, ?_⟩
  · cases resp with
    | none => simp [onResponse]
    | some r =>
      cases userData with
      | none => simp [onResponse]
      | some key =>
        by_cases h200 : r.StatusCode = 200
        · simp [onResponse, shouldCache, h200]
        · simp [onResponse, shouldCache, h200]
  · cases resp with
    | none => intro _; rfl
    | some r =>
      cases userData with
      | none => intro _; rfl
      | some key =>
        by_cases h200 : r.StatusCode = 200
        · intro hfalse
          simp [onResponse, shouldCache, h200] at hfalse
        · intro _
          simp [onResponse, shouldCache, h200]
  · intro url method out hout
    unfold onRequest at hout
    cases hg : Cache.Get db url method with
    | error e =>
      rw [hg] at hout
      exact Except.noConfusion hout
    | ok o =>
      rw [hg] at hout
      cases o with
      | none =>
        simp only [Except.ok.injEq] at hout
        rw [← hout]
        simp
      | some cached =>
        simp only [Except.ok.injEq] at hout
        rw [← hout]
        simp

/-- C6 witness: a 200 response with an attached key is stored. -/
theorem onResponse_stores_iff_witness :
    (onResponse [] (some respA) (some keyA) timeA).2 = true :=
  (onResponse_stores_iff [] (some respA) (some keyA) timeA).1.mpr
    ⟨respA, keyA, rfl, rfl, rfl⟩

/-- C9: `Fetch` returns a retained certificate without invoking the
generation function; the generation function runs only when nothing is
retained for the hostname; and a generating fetch retains its result,
which later fetches for the hostname return. -/
theorem certFetch_gen_only_on_miss {α : Type} (cs : CertStorage α)
    (hostname : String) (c : α)
    (hstored : certLookup cs hostname = some c) :
    (∀ gen : Except String α, CertStorage.Fetch cs hostname gen = (.ok c, cs, false)) ∧
    (∀ (cs2 : CertStorage α) (h2 : String) (gen2 : Except String α),
        (CertStorage.Fetch cs2 h2 gen2).2.2 = true → certLookup cs2 h2 = none) ∧
    (∀ (cs2 : CertStorage α) (h2 : String) (cert2 : α),
        certLookup cs2 h2 = none →
        CertStorage.Fetch cs2 h2 (.ok cert2) =
          (.ok cert2, cs2 ++ [(h2, cert2)], true) ∧
        certLookup (cs2 ++ [(h2, cert2)]) h2 = some cert2) := by
  refine ⟨?_, ?_, ?_⟩
  · intro gen
    unfold CertStorage.Fetch
    rw [hstored]
  · intro cs2 h2 gen2 hcall
    unfold CertStorage.Fetch at hcall
    cases hl : certLookup cs2 h2 with
    | some c2 =>
      rw [hl] at hcall
      simp at hcall
    | none => rfl
  · intro cs2 h2 cert2 hnone
    constructor
    · unfold CertStorage.Fetch
      rw [hnone]
    · have hfind : cs2.find? (fun p => p.1 == h2) = none := by
        unfold certLookup at hnone
        exact Option.map_eq_none'.mp hnone
      have happ := find?_append_single cs2 (fun p => p.1 == h2) (h2, cert2) hfind (by simp)
      unfold certLookup
      rw [happ]
      rfl

/-- C9 witness: a second fetch for `example.com` reuses the retained
certificate and never runs the (failing) generator. -/
theorem certFetch_gen_only_on_miss_witness :
    CertStorage.Fetch certsA "example.com" (.error "generator invoked") =
      (.ok 42, certsA, false) :=
  (certFetch_gen_only_on_miss certsA "example.com" 42 (by decide)).1
    (.error "generator invoked")

end AntarcticCache
